import Mathlib

/-!
Verification of `models.py`: a product value object, the two enumerations
`TransactionType` and `OrderType`, the validated `Order` value object, and the
`Orders` collection that assigns sequential identifiers and, after every
insertion, recomputes and prints the best (highest total value) order per
transaction type.

Modelling choices:
* Python floats are modelled as exact rationals (`ℚ`); Python ints as `Int`.
* Python dicts are modelled as insertion-ordered association lists with the
  dict operations `d.get(k)` (`dictGet`) and `d[k] = v` (`dictSet`, which
  updates in place when the key is present and appends otherwise), matching
  the insertion-order iteration semantics of Python 3.7+ dicts.
* Standard output is modelled by returning the list of printed lines.
* Raising an exception is modelled with `Except`, the exception carrying its
  concrete Python type name and its message.
-/

/-- Enumeration `TransactionType` of models.py: members BUY and SELL with
string values "Buy" and "Sell". -/
inductive TransactionType where
  | BUY
  | SELL
deriving DecidableEq, Repr

/-- String value of a `TransactionType` member (`member.value` in Python). -/
def TransactionType.value : TransactionType → String
  | .BUY => "Buy"
  | .SELL => "Sell"

/-- Enumeration `OrderType` of models.py: members ADD and REMOVE with string
values "Add" and "Remove". -/
inductive OrderType where
  | ADD
  | REMOVE
deriving DecidableEq, Repr

/-- String value of an `OrderType` member (`member.value` in Python). -/
def OrderType.value : OrderType → String
  | .ADD => "Add"
  | .REMOVE => "Remove"

/-- Class `Product` of models.py: a name and a price.  The Python float price
is modelled as an exact rational. -/
structure Product where
  name : String
  price : ℚ
deriving DecidableEq, Repr

/-- A raised Python exception: its concrete type name and its message. -/
structure PyError where
  etype : String
  msg : String
deriving DecidableEq, Repr

/-- Class `Order` of models.py: a products dict (modelled as an
insertion-ordered list of (product, quantity) entries; Python keys products
by object identity, so structurally equal products may occur as separate
entries), a transaction type and an order type. -/
structure Order where
  products : List (Product × Int)
  transaction_type : TransactionType
  order_type : OrderType
deriving DecidableEq, Repr

/-- A Python value passed as the `transaction_type` argument of
`Order.__init__`: either an actual `TransactionType` member or any other
value (represented by its repr string), which fails the membership test
`transaction_type not in TransactionType.__members__.values()`. -/
inductive TransactionTypeArg where
  | valid (t : TransactionType)
  | invalid (v : String)
deriving DecidableEq, Repr

/-- A Python value passed as the `order_type` argument of `Order.__init__`:
either an actual `OrderType` member or any other value. -/
inductive OrderTypeArg where
  | valid (t : OrderType)
  | invalid (v : String)
deriving DecidableEq, Repr

/-- The TypeError raised by `Order.__init__` for a bad transaction type
(models.py line 86). -/
def transactionTypeError : PyError :=
  { etype := "TypeError"
    msg := "Invalid transaction type. It should be \"Buy\" or \"Sell\"." }

/-- The TypeError raised by `Order.__init__` for a bad order type
(models.py line 88). -/
def orderTypeError : PyError :=
  { etype := "TypeError"
    msg := "Invalid order type. It should be \"Add\" or \"Remove\"." }

/-- Method `Order.__init__` of models.py: the `transaction_type` membership
check runs first, then the `order_type` check; on success the three fields
are stored unchanged, with no validation of `products`. -/
def Order.init (products : List (Product × Int)) (tta : TransactionTypeArg)
    (ota : OrderTypeArg) : Except PyError Order :=
  match tta with
  | .invalid _ => .error transactionTypeError
  | .valid t =>
    match ota with
    | .invalid _ => .error orderTypeError
    | .valid o => .ok { products := products, transaction_type := t, order_type := o }

/-- Lookup `d.get(k)` on a Python dict modelled as an insertion-ordered
association list: the value of the first matching key, else `none`. -/
def dictGet {α β : Type} [DecidableEq α] : List (α × β) → α → Option β
  | [], _ => none
  | (k, v) :: rest, k₀ => if k = k₀ then some v else dictGet rest k₀

/-- Assignment `d[k] = v` on a Python dict modelled as an insertion-ordered
association list: updates the value in place when the key is present (keeping
its position), appends a new entry otherwise. -/
def dictSet {α β : Type} [DecidableEq α] : List (α × β) → α → β → List (α × β)
  | [], k₀, v₀ => [(k₀, v₀)]
  | (k, v) :: rest, k₀, v₀ =>
    if k = k₀ then (k₀, v₀) :: rest else (k, v) :: dictSet rest k₀ v₀

/-- The `total_sum` loop of `display_order_with_a_best_price`: starting from
0, add `quantity * product.price` for every entry of the order's products
dict. -/
def orderTotal (o : Order) : ℚ :=
  o.products.foldl (fun s pq => s + (pq.2 : ℚ) * pq.1.price) 0

/-- One iteration of the accumulation loop of
`display_order_with_a_best_price` over one stored `(order_id, order)` entry.
The Python guard `if not result.get(order.transaction_type)` is a truthiness
test, but the stored value is always the non-empty (hence truthy) list
`[order_id, total_sum]`, so it is exactly a key-absence test; the stored
record is replaced only when the new total is strictly greater
(`result[order.transaction_type][1] < total_sum`). -/
def bestStep (result : List (TransactionType × (Nat × ℚ))) (entry : Nat × Order) :
    List (TransactionType × (Nat × ℚ)) :=
  match dictGet result entry.2.transaction_type with
  | none => dictSet result entry.2.transaction_type (entry.1, orderTotal entry.2)
  | some best =>
    if best.2 < orderTotal entry.2 then
      dictSet result entry.2.transaction_type (entry.1, orderTotal entry.2)
    else result

/-- The `result` dict built by `display_order_with_a_best_price`: fold the
accumulation loop over the stored orders in iteration (insertion) order. -/
def computeBest (orders : List (Nat × Order)) : List (TransactionType × (Nat × ℚ)) :=
  orders.foldl bestStep []

/-- Decimal digits of a fraction 0 ≤ q < 1, fuel-bounded (17 digits suffice
for every value a Python float can render). -/
def fracDigits : Nat → ℚ → String
  | 0, _ => ""
  | n + 1, q =>
    if q = 0 then ""
    else
      let d : Int := (q * 10).num / ((q * 10).den : Int)
      toString d ++ fracDigits n (q * 10 - (d : ℚ))

/-- Rendering of a Python float by `str()`, modelled on the exact rationals
of this embedding: an integral value prints as "<n>.0", exactly as Python
renders it; a fractional value prints its decimal digits. -/
def formatPyFloat (q : ℚ) : String :=
  let sign := if q < 0 then "-" else ""
  let a : ℚ := if q < 0 then -q else q
  let ip : Int := a.num / (a.den : Int)
  let fr : ℚ := a - (ip : ℚ)
  sign ++ toString ip ++ "." ++ (if fr = 0 then "0" else fracDigits 17 fr)

/-- One printed line of `display_order_with_a_best_price`:
`f'Best {transaction_type.value} Order: ID = {details[0]}, Price = {details[1]}'`. -/
def renderLine (e : TransactionType × (Nat × ℚ)) : String :=
  "Best " ++ e.1.value ++ " Order: ID = " ++ toString e.2.1 ++
    ", Price = " ++ formatPyFloat e.2.2

/-- Class `Orders` of models.py: the orders dict, keys are order ids. -/
structure Orders where
  orders : List (Nat × Order)
deriving DecidableEq, Repr

/-- Constructor `Orders.__init__`: an empty orders dict. -/
def Orders.new : Orders := ⟨[]⟩

/-- Method `Orders._get_next_id`: `len(self.orders) + 1`. -/
def Orders.getNextId (b : Orders) : Nat := b.orders.length + 1

/-- Method `Orders.display_order_with_a_best_price`: builds the result dict
and prints one line per entry; the returned list is the printed lines. -/
def Orders.display_order_with_a_best_price (b : Orders) : List String :=
  (computeBest b.orders).map renderLine

/-- Method `Orders.add_order`: stores the order under `self._get_next_id()`,
then calls `display_order_with_a_best_price`; the result is the new state
together with the lines printed by that call. -/
def Orders.add_order (b : Orders) (o : Order) : Orders × List String :=
  let b' : Orders := ⟨dictSet b.orders b.getNextId o⟩
  (b', b'.display_order_with_a_best_price)

/-- One `add_order` call of a driver loop: the new state, with the lines it
printed appended to the output accumulated so far. -/
def runStep (acc : Orders × List String) (o : Order) : Orders × List String :=
  ((acc.1.add_order o).1, acc.2 ++ (acc.1.add_order o).2)

/-- Running a sequence of `add_order` calls on a fresh `Orders`, accumulating
all printed lines in order. -/
def runOrders (os : List Order) : Orders × List String :=
  os.foldl runStep (Orders.new, [])

/-- Fixture order `Order({Product('Banana', 99.0): 99}, BUY, ADD)` of
models_test.py. -/
def orderA : Order := ⟨[(⟨"Banana", 99⟩, 99)], .BUY, .ADD⟩

/-- Fixture order `Order({Product('Apple', 1.0): 1}, BUY, ADD)`. -/
def orderB : Order := ⟨[(⟨"Apple", 1⟩, 1)], .BUY, .ADD⟩

/-- Fixture order `Order({Product('Orange', 53.0): 1}, SELL, ADD)`. -/
def orderC : Order := ⟨[(⟨"Orange", 53⟩, 1)], .SELL, .ADD⟩

/-- Fixture order `Order({Product('Lemon', 0.1): 9}, SELL, ADD)`. -/
def orderD : Order := ⟨[(⟨"Lemon", (1 : ℚ) / 10⟩, 9)], .SELL, .ADD⟩

/-- First occurrences of the elements of a list, in first-seen order: the
key iteration order of a Python dict built by repeated assignment, as the
`result` dict of `display_order_with_a_best_price` is. -/
def firstSeen : List TransactionType → List TransactionType
  | [] => []
  | t :: ts => t :: (firstSeen ts).filter (fun u => u ≠ t)

/-- Specification-side statement of the best record, following the spec's
words (for the refinement comparison of claim C1): `(i, t)` is best for a
transaction type when some stored order of that type with identifier `i` has
total `t`, every stored order of that type has total at most `t`, and `i` is
the lowest identifier attaining `t` among them. -/
def specBest (book : List (Nat × Order)) (tt : TransactionType) (i : Nat) (t : ℚ) : Prop :=
  (∃ o : Order, (i, o) ∈ book ∧ o.transaction_type = tt ∧ orderTotal o = t) ∧
  (∀ p ∈ book, p.2.transaction_type = tt → orderTotal p.2 ≤ t) ∧
  (∀ p ∈ book, p.2.transaction_type = tt → orderTotal p.2 = t → i ≤ p.1)

/-- The fields of an order other than its (inert) order_type. -/
def stripOT (o : Order) : List (Product × Int) × TransactionType :=
  (o.products, o.transaction_type)

/-- A BUY/ADD order with an empty products mapping (total 0). -/
def blankBuyAdd : Order := ⟨[], .BUY, .ADD⟩

/-- A BUY/REMOVE order with an empty products mapping (total 0). -/
def blankBuyRemove : Order := ⟨[], .BUY, .REMOVE⟩

section DictLemmas

variable {α β γ : Type} [DecidableEq α]

/-- Looking a key up right after setting it yields the assigned value. -/
theorem dictGet_dictSet_self (l : List (α × β)) (k : α) (v : β) :
    dictGet (dictSet l k v) k = some v := by
  induction l with
  | nil => simp [dictGet, dictSet]
  | cons p rest ih =>
    by_cases h : p.1 = k
    · simp [dictSet, dictGet, h]
    · simp [dictSet, dictGet, h, ih]

/-- Setting one key leaves every other key's lookup unchanged. -/
theorem dictGet_dictSet_ne (l : List (α × β)) (k k' : α) (v : β) (h : k' ≠ k) :
    dictGet (dictSet l k v) k' = dictGet l k' := by
  induction l with
  | nil => simp [dictGet, dictSet, Ne.symm h]
  | cons p rest ih =>
    by_cases hp : p.1 = k
    · subst hp
      simp [dictSet, dictGet, Ne.symm h]
    · simp [dictSet, dictGet, hp, ih]

/-- A successful lookup is a membership witness. -/
theorem dictGet_mem (l : List (α × β)) (k : α) (v : β)
    (h : dictGet l k = some v) : (k, v) ∈ l := by
  induction l with
  | nil => simp [dictGet] at h
  | cons p rest ih =>
    by_cases hp : p.1 = k
    · subst hp
      simp [dictGet] at h
      simp [← h]
    · simp [dictGet, hp] at h
      exact List.mem_cons_of_mem _ (ih h)

/-- A lookup misses exactly when the key is absent. -/
theorem dictGet_eq_none_iff (l : List (α × β)) (k : α) :
    dictGet l k = none ↔ k ∉ l.map Prod.fst := by
  induction l with
  | nil => simp [dictGet]
  | cons p rest ih =>
    by_cases hp : p.1 = k
    · subst hp
      simp [dictGet]
    · simp [dictGet, hp, ih, Ne.symm hp]

/-- Setting an absent key appends the new entry at the end, exactly as a
Python dict does. -/
theorem dictSet_of_not_mem (l : List (α × β)) (k : α) (v : β)
    (h : k ∉ l.map Prod.fst) : dictSet l k v = l ++ [(k, v)] := by
  induction l with
  | nil => simp [dictSet]
  | cons p rest ih =>
    simp only [List.map_cons, List.mem_cons] at h
    push_neg at h
    simp [dictSet, Ne.symm h.1, ih h.2]

/-- Setting a present key keeps the key sequence unchanged. -/
theorem map_fst_dictSet_of_mem (l : List (α × β)) (k : α) (v : β)
    (h : k ∈ l.map Prod.fst) : (dictSet l k v).map Prod.fst = l.map Prod.fst := by
  induction l with
  | nil => simp at h
  | cons p rest ih =>
    by_cases hp : p.1 = k
    · simp [dictSet, hp]
    · simp only [List.map_cons, List.mem_cons] at h
      rcases h with h | h
      · exact absurd h.symm hp
      · simp [dictSet, hp, ih h]

/-- Mapping a function over the values commutes with dict assignment. -/
theorem dictSet_map_value (l : List (α × β)) (k : α) (v : β) (f : β → γ) :
    (dictSet l k v).map (fun p => (p.1, f p.2)) =
      dictSet (l.map (fun p => (p.1, f p.2))) k (f v) := by
  induction l with
  | nil => simp [dictSet]
  | cons p rest ih =>
    by_cases hp : p.1 = k
    · simp [dictSet, hp]
    · simp [dictSet, hp, ih]

end DictLemmas

/-- Folding the accumulation loop over one more trailing order is one
`bestStep`. -/
theorem computeBest_append (l : List (Nat × Order)) (x : Nat × Order) :
    computeBest (l ++ [x]) = bestStep (computeBest l) x := by
  simp [computeBest, List.foldl_append]

/-- Claim C5: inserting, into a fresh OrderBook and in this order, the four
fixture orders Banana/99.0/99 BUY, Apple/1.0/1 BUY, Orange/53.0/1 SELL,
Lemon/0.1/9 SELL produces exactly the six cumulative standard-output lines:
a best-buy line after each of the first three insertions, a best-sell line
(ID 3, 53.0) also after the third, and both lines again after the fourth. -/
theorem claim_C5 :
    (runOrders [orderA, orderB, orderC, orderD]).2 =
      ["Best Buy Order: ID = 1, Price = 9801.0",
       "Best Buy Order: ID = 1, Price = 9801.0",
       "Best Buy Order: ID = 1, Price = 9801.0",
       "Best Sell Order: ID = 3, Price = 53.0",
       "Best Buy Order: ID = 1, Price = 9801.0",
       "Best Sell Order: ID = 3, Price = 53.0"] := by
  with_unfolding_all rfl

/-- Claim C2: for every products mapping and every argument pair, Order
construction fails with the exact invalid-transaction-type message whenever
the transaction type argument is not a member (also when both arguments are
invalid: the transaction type is checked first), fails with the exact
invalid-order-type message when the transaction type is valid and the order
type is not, and succeeds otherwise with the products mapping stored
unvalidated. -/
theorem claim_C2 (ps : List (Product × Int)) (t : TransactionType)
    (ot : OrderType) (s s' : String) :
    Order.init ps (.invalid s) (.valid ot) = .error transactionTypeError ∧
    Order.init ps (.invalid s) (.invalid s') = .error transactionTypeError ∧
    Order.init ps (.valid t) (.invalid s') = .error orderTypeError ∧
    Order.init ps (.valid t) (.valid ot) =
      .ok { products := ps, transaction_type := t, order_type := ot } ∧
    transactionTypeError.msg =
      "Invalid transaction type. It should be \"Buy\" or \"Sell\"." ∧
    orderTypeError.msg =
      "Invalid order type. It should be \"Add\" or \"Remove\"." :=
  ⟨rfl, rfl, rfl, rfl, rfl, rfl⟩

/-- Claim C10: both Order validation failures raise errors of the same
concrete Python type, TypeError, distinguishable only by their message. -/
theorem claim_C10 (ps : List (Product × Int)) (t : TransactionType)
    (ot : OrderType) (s s' : String) :
    ∃ e₁ e₂ : PyError,
      Order.init ps (.invalid s) (.valid ot) = .error e₁ ∧
      Order.init ps (.valid t) (.invalid s') = .error e₂ ∧
      e₁.etype = "TypeError" ∧ e₂.etype = "TypeError" ∧
      e₁.etype = e₂.etype ∧ e₁.msg ≠ e₂.msg :=
  ⟨transactionTypeError, orderTypeError, rfl, rfl, rfl, rfl, rfl, by decide⟩

/-- Unfolding of `bestStep` when the transaction type is not yet recorded:
the first order of its type seeds the record. -/
theorem bestStep_of_none (r : List (TransactionType × (Nat × ℚ))) (e : Nat × Order)
    (hg : dictGet r e.2.transaction_type = none) :
    bestStep r e = dictSet r e.2.transaction_type (e.1, orderTotal e.2) := by
  simp [bestStep, hg]

/-- Unfolding of `bestStep` when the transaction type already has a record:
the record is replaced exactly when the new total is strictly greater. -/
theorem bestStep_of_some (r : List (TransactionType × (Nat × ℚ))) (e : Nat × Order)
    (b : Nat × ℚ) (hg : dictGet r e.2.transaction_type = some b) :
    bestStep r e =
      if b.2 < orderTotal e.2 then
        dictSet r e.2.transaction_type (e.1, orderTotal e.2)
      else r := by
  simp [bestStep, hg]

/-- A `bestStep` for one order leaves the records of the other transaction
types unchanged. -/
theorem bestStep_get_ne (r : List (TransactionType × (Nat × ℚ))) (e : Nat × Order)
    (tt : TransactionType) (h : tt ≠ e.2.transaction_type) :
    dictGet (bestStep r e) tt = dictGet r tt := by
  cases hg : dictGet r e.2.transaction_type with
  | none => rw [bestStep_of_none r e hg, dictGet_dictSet_ne _ _ _ _ h]
  | some b =>
    rw [bestStep_of_some r e b hg]
    by_cases hlt : b.2 < orderTotal e.2
    · rw [if_pos hlt, dictGet_dictSet_ne _ _ _ _ h]
    · rw [if_neg hlt]

/-- A transaction type has no record in the result dict exactly when no
stored order has that type. -/
theorem computeBest_get_none_iff (l : List (Nat × Order)) (tt : TransactionType) :
    dictGet (computeBest l) tt = none ↔ ∀ p ∈ l, p.2.transaction_type ≠ tt := by
  induction l using List.reverseRecOn with
  | nil => simp [computeBest, dictGet]
  | append_singleton l x ih =>
    rw [computeBest_append]
    by_cases hx : tt = x.2.transaction_type
    · subst hx
      constructor
      · intro h
        exfalso
        cases hg : dictGet (computeBest l) x.2.transaction_type with
        | none =>
          rw [bestStep_of_none _ _ hg, dictGet_dictSet_self] at h
          exact Option.noConfusion h
        | some b =>
          rw [bestStep_of_some _ _ b hg] at h
          by_cases hlt : b.2 < orderTotal x.2
          · rw [if_pos hlt, dictGet_dictSet_self] at h
            exact Option.noConfusion h
          · rw [if_neg hlt, hg] at h
            exact Option.noConfusion h
      · intro h
        exact absurd rfl (h x (by simp))
    · rw [bestStep_get_ne _ _ _ hx, ih]
      constructor
      · intro h p hp
        rcases List.mem_append.mp hp with hp | hp
        · exact h p hp
        · rcases List.mem_singleton.mp hp with rfl
          exact fun hc => hx hc.symm
      · intro h p hp
        exact h p (List.mem_append.mpr (Or.inl hp))

/-- Running one more order is one `add_order` call on the state reached so
far, with its printed lines appended to the output so far. -/
theorem runOrders_append (os : List Order) (o : Order) :
    runOrders (os ++ [o]) =
      (((runOrders os).1.add_order o).1,
        (runOrders os).2 ++ ((runOrders os).1.add_order o).2) := by
  simp [runOrders, runStep, List.foldl_append]

/-- The book built by N `add_order` calls on a fresh collection pairs the
identifiers 1..N with the inserted orders, in insertion order. -/
theorem runOrders_book (os : List Order) :
    (runOrders os).1.orders = (List.range' 1 os.length).zip os := by
  induction os using List.reverseRecOn with
  | nil => simp [runOrders, Orders.new]
  | append_singleton os o ih =>
    have hlen : (runOrders os).1.orders.length = os.length := by
      rw [ih]
      simp [List.length_zip, List.length_range']
    have hkeys : (runOrders os).1.orders.map Prod.fst = List.range' 1 os.length := by
      rw [ih]
      exact List.map_fst_zip _ _ (by simp [List.length_range'])
    have hfresh : os.length + 1 ∉ (runOrders os).1.orders.map Prod.fst := by
      rw [hkeys, List.mem_range'_1]
      omega
    rw [runOrders_append]
    show (⟨dictSet (runOrders os).1.orders (runOrders os).1.getNextId o⟩ : Orders).orders = _
    rw [show (runOrders os).1.getNextId = os.length + 1 by
      simp [Orders.getNextId, hlen]]
    rw [dictSet_of_not_mem _ _ _ hfresh, ih]
    rw [show (os ++ [o]).length = os.length + 1 by simp]
    rw [List.range'_concat]
    rw [List.zip_append (by simp [List.length_range'])]
    simp
    omega

/-- The identifier sequence of the book after N insertions is 1..N. -/
theorem runOrders_keys (os : List Order) :
    (runOrders os).1.orders.map Prod.fst = List.range' 1 os.length := by
  rw [runOrders_book]
  exact List.map_fst_zip _ _ (by simp [List.length_range'])

/-- The stored identifiers are strictly increasing along iteration order. -/
theorem runOrders_pairwise (os : List Order) :
    (runOrders os).1.orders.Pairwise (fun a b => a.1 < b.1) := by
  have h := List.pairwise_lt_range' 1 os.length
  rw [← runOrders_keys os] at h
  exact (List.pairwise_map).mp h

/-- The book after N insertions holds exactly N entries. -/
theorem runOrders_length (os : List Order) :
    (runOrders os).1.orders.length = os.length := by
  rw [runOrders_book]
  simp [List.length_zip, List.length_range']

/-- After N insertions the next identifier is N + 1. -/
theorem runOrders_getNextId (os : List Order) :
    (runOrders os).1.getNextId = os.length + 1 := by
  simp [Orders.getNextId, runOrders_length]

/-- An `add_order` call on a reachable state appends exactly one entry,
keyed by the next identifier, and leaves every earlier entry in place. -/
theorem add_order_book (os : List Order) (o : Order) :
    ((runOrders os).1.add_order o).1.orders =
      (runOrders os).1.orders ++ [(os.length + 1, o)] := by
  have hfresh : (runOrders os).1.getNextId ∉ (runOrders os).1.orders.map Prod.fst := by
    rw [runOrders_getNextId, runOrders_keys, List.mem_range'_1]
    omega
  show dictSet (runOrders os).1.orders (runOrders os).1.getNextId o = _
  rw [dictSet_of_not_mem _ _ _ hfresh, runOrders_getNextId]

/-- The record the accumulation loop keeps for a transaction type is the
spec's best record: the maximum total of that type, held by the lowest
identifier attaining it — provided the book is iterated in strictly
increasing identifier order, as a reachable book is. -/
theorem computeBest_spec (l : List (Nat × Order))
    (hs : l.Pairwise (fun a b => a.1 < b.1)) (tt : TransactionType) (i : Nat) (t : ℚ)
    (h : dictGet (computeBest l) tt = some (i, t)) : specBest l tt i t := by
  induction l using List.reverseRecOn generalizing i t with
  | nil => simp [computeBest, dictGet] at h
  | append_singleton l x ih =>
    obtain ⟨j, o⟩ := x
    rw [computeBest_append] at h
    have hsl : l.Pairwise (fun a b => a.1 < b.1) := (List.pairwise_append.mp hs).1
    have hlt_all : ∀ p ∈ l, p.1 < j := by
      intro p hp
      exact (List.pairwise_append.mp hs).2.2 p hp (j, o) (by simp)
    by_cases htt : tt = o.transaction_type
    · subst htt
      cases hprev : dictGet (computeBest l) o.transaction_type with
      | none =>
        rw [bestStep_of_none _ _ hprev, dictGet_dictSet_self] at h
        have hnone := (computeBest_get_none_iff l o.transaction_type).mp hprev
        simp only [Option.some.injEq, Prod.mk.injEq] at h
        obtain ⟨rfl, rfl⟩ := h
        refine ⟨⟨o, by simp, rfl, rfl⟩, ?_, ?_⟩
        · intro p hp hptt
          rcases List.mem_append.mp hp with hp | hp
          · exact absurd hptt (hnone p hp)
          · rcases List.mem_singleton.mp hp with rfl
            exact le_refl _
        · intro p hp hptt hpt
          rcases List.mem_append.mp hp with hp | hp
          · exact absurd hptt (hnone p hp)
          · rcases List.mem_singleton.mp hp with rfl
            exact le_refl _
      | some b =>
        obtain ⟨bi, bt⟩ := b
        have IH := ih hsl bi bt hprev
        rw [bestStep_of_some _ _ _ hprev] at h
        by_cases hlt : bt < orderTotal o
        · rw [if_pos hlt, dictGet_dictSet_self] at h
          simp only [Option.some.injEq, Prod.mk.injEq] at h
          obtain ⟨rfl, rfl⟩ := h
          refine ⟨⟨o, by simp, rfl, rfl⟩, ?_, ?_⟩
          · intro p hp hptt
            rcases List.mem_append.mp hp with hp | hp
            · exact le_trans (IH.2.1 p hp hptt) (le_of_lt hlt)
            · rcases List.mem_singleton.mp hp with rfl
              exact le_refl _
          · intro p hp hptt hpt
            rcases List.mem_append.mp hp with hp | hp
            · exact absurd (lt_of_le_of_lt (hpt ▸ IH.2.1 p hp hptt) hlt) (lt_irrefl _)
            · rcases List.mem_singleton.mp hp with rfl
              exact le_refl _
        · rw [if_neg hlt, hprev] at h
          simp only [Option.some.injEq, Prod.mk.injEq] at h
          obtain ⟨rfl, rfl⟩ := h
          obtain ⟨o', ho₁, ho₂, ho₃⟩ := IH.1
          refine ⟨⟨o', List.mem_append.mpr (Or.inl ho₁), ho₂, ho₃⟩, ?_, ?_⟩
          · intro p hp hptt
            rcases List.mem_append.mp hp with hp | hp
            · exact IH.2.1 p hp hptt
            · rcases List.mem_singleton.mp hp with rfl
              exact not_lt.mp hlt
          · intro p hp hptt hpt
            rcases List.mem_append.mp hp with hp | hp
            · exact IH.2.2 p hp hptt hpt
            · rcases List.mem_singleton.mp hp with rfl
              exact le_of_lt (hlt_all _ ho₁)
    · rw [bestStep_get_ne _ _ _ htt] at h
      obtain ⟨⟨o', ho₁, ho₂, ho₃⟩, hub, hmin⟩ := ih hsl i t h
      refine ⟨⟨o', List.mem_append.mpr (Or.inl ho₁), ho₂, ho₃⟩, ?_, ?_⟩
      · intro p hp hptt
        rcases List.mem_append.mp hp with hp | hp
        · exact hub p hp hptt
        · rcases List.mem_singleton.mp hp with rfl
          exact absurd hptt.symm htt
      · intro p hp hptt hpt
        rcases List.mem_append.mp hp with hp | hp
        · exact hmin p hp hptt hpt
        · rcases List.mem_singleton.mp hp with rfl
          exact absurd hptt.symm htt

/-- Claim C1: after any sequence of insertions into a fresh OrderBook, the
best-per-type report names, for each transaction type with at least one
stored order, the pair (id, total) where total is the maximum of the sums
Σ(quantity × price) over stored orders of that type and id is the lowest
identifier attaining it; the corresponding line is printed. -/
theorem claim_C1 (os : List Order) (tt : TransactionType)
    (h : ∃ p ∈ (runOrders os).1.orders, p.2.transaction_type = tt) :
    ∃ i t, dictGet (computeBest (runOrders os).1.orders) tt = some (i, t) ∧
      specBest (runOrders os).1.orders tt i t ∧
      renderLine (tt, (i, t)) ∈ (runOrders os).1.display_order_with_a_best_price := by
  have hne : dictGet (computeBest (runOrders os).1.orders) tt ≠ none := by
    intro hn
    rw [computeBest_get_none_iff] at hn
    obtain ⟨p, hp, hptt⟩ := h
    exact hn p hp hptt
  cases hg : dictGet (computeBest (runOrders os).1.orders) tt with
  | none => exact absurd hg hne
  | some v =>
    obtain ⟨i, t⟩ := v
    refine ⟨i, t, rfl, computeBest_spec _ (runOrders_pairwise os) tt i t hg, ?_⟩
    show _ ∈ (computeBest (runOrders os).1.orders).map renderLine
    exact List.mem_map.mpr ⟨(tt, (i, t)), dictGet_mem _ _ _ hg, rfl⟩

/-- Concrete instance of claim C1: one stored BUY order. -/
theorem claim_C1_witness :
    ∃ i t,
      dictGet (computeBest (runOrders [blankBuyAdd]).1.orders) TransactionType.BUY =
        some (i, t) ∧
      specBest (runOrders [blankBuyAdd]).1.orders TransactionType.BUY i t ∧
      renderLine (TransactionType.BUY, (i, t)) ∈
        (runOrders [blankBuyAdd]).1.display_order_with_a_best_price :=
  claim_C1 [blankBuyAdd] TransactionType.BUY (by decide)

/-- Claim C3: the Nth call to add_order on a fresh OrderBook assigns
identifier N, after N calls the book holds exactly the N entries keyed
1..N in order with no gaps and no reuse, and _get_next_id returns
count(orders) + 1 (it is a pure function of the state). -/
theorem claim_C3 (os : List Order) (b : Orders) :
    (runOrders os).1.orders = (List.range' 1 os.length).zip os ∧
    (runOrders os).1.orders.map Prod.fst = List.range' 1 os.length ∧
    (runOrders os).1.orders.length = os.length ∧
    b.getNextId = b.orders.length + 1 :=
  ⟨runOrders_book os, runOrders_keys os, runOrders_length os, rfl⟩

/-- Claim C4: when a transaction type's best record is (bi, bt), appending an
order of that type replaces the record exactly when its total is strictly
greater; on an equal total the earlier (lower-identifier) record stays. -/
theorem claim_C4 (book : List (Nat × Order)) (i : Nat) (o : Order) (bi : Nat) (bt : ℚ)
    (hb : dictGet (computeBest book) o.transaction_type = some (bi, bt)) :
    dictGet (computeBest (book ++ [(i, o)])) o.transaction_type =
      if bt < orderTotal o then some (i, orderTotal o) else some (bi, bt) := by
  rw [computeBest_append, bestStep_of_some _ _ _ hb]
  by_cases hlt : bt < orderTotal o
  · rw [if_pos hlt, if_pos hlt, dictGet_dictSet_self]
  · rw [if_neg hlt, if_neg hlt, hb]

/-- Concrete instance of claim C4: two BUY orders with equal totals (both 0);
the earlier record, ID 1, is kept. -/
theorem claim_C4_witness :
    dictGet (computeBest ([(1, blankBuyAdd)] ++ [(2, blankBuyAdd)]))
        blankBuyAdd.transaction_type =
      if (0 : ℚ) < orderTotal blankBuyAdd then some (2, orderTotal blankBuyAdd)
      else some (1, (0 : ℚ)) :=
  claim_C4 [(1, blankBuyAdd)] 2 blankBuyAdd 1 0 (by decide)

/-- Claim C7: an order with an empty products mapping has computed total 0,
seeds the best record for its transaction type when it is the first of that
type, and is then beaten only by a later order of the same type with a
strictly positive total. -/
theorem claim_C7 (o : Order) (h : o.products = []) (book : List (Nat × Order)) (i : Nat)
    (hseed : dictGet (computeBest book) o.transaction_type = none) :
    orderTotal o = 0 ∧
    dictGet (computeBest (book ++ [(i, o)])) o.transaction_type = some (i, 0) ∧
    ∀ (j : Nat) (o' : Order), o'.transaction_type = o.transaction_type →
      dictGet (computeBest ((book ++ [(i, o)]) ++ [(j, o')])) o.transaction_type =
        if 0 < orderTotal o' then some (j, orderTotal o') else some (i, 0) := by
  have htot : orderTotal o = 0 := by simp [orderTotal, h]
  have h2 : dictGet (computeBest (book ++ [(i, o)])) o.transaction_type = some (i, 0) := by
    rw [computeBest_append, bestStep_of_none _ _ hseed, dictGet_dictSet_self, htot]
  refine ⟨htot, h2, ?_⟩
  intro j o' htt'
  rw [← htt']
  have h2' : dictGet (computeBest (book ++ [(i, o)])) o'.transaction_type = some (i, 0) := by
    rw [htt']
    exact h2
  rw [computeBest_append, bestStep_of_some _ _ _ h2']
  by_cases hlt : (0 : ℚ) < orderTotal o'
  · rw [if_pos hlt, if_pos hlt, dictGet_dictSet_self]
  · rw [if_neg hlt, if_neg hlt]
    exact h2'

/-- Concrete instance of claim C7: the empty-products BUY order seeds the
record of the BUY type in an empty book. -/
theorem claim_C7_witness :
    orderTotal blankBuyAdd = 0 ∧
    dictGet (computeBest ([] ++ [(1, blankBuyAdd)])) blankBuyAdd.transaction_type =
      some (1, 0) ∧
    ∀ (j : Nat) (o' : Order), o'.transaction_type = blankBuyAdd.transaction_type →
      dictGet (computeBest (([] ++ [(1, blankBuyAdd)]) ++ [(j, o')]))
          blankBuyAdd.transaction_type =
        if 0 < orderTotal o' then some (j, orderTotal o') else some (1, 0) :=
  claim_C7 blankBuyAdd rfl [] 1 rfl

/-- Claim C9: add_order changes the book only by appending the one new
(id, order) entry — every previously stored entry stays in place and the
passed order is stored unmodified — and the printed summary is exactly the
derived view of the new state, which is not stored anywhere (the state holds
nothing but the orders dict). -/
theorem claim_C9 (os : List Order) (o : Order) :
    ((runOrders os).1.add_order o).1.orders =
      (runOrders os).1.orders ++ [(os.length + 1, o)] ∧
    ((runOrders os).1.add_order o).2 =
      ((runOrders os).1.add_order o).1.display_order_with_a_best_price :=
  ⟨add_order_book os o, rfl⟩

/-- Appending one element to the scanned list either leaves the first-seen
sequence unchanged (element already seen) or appends it at the end. -/
theorem firstSeen_append (ts : List TransactionType) (u : TransactionType) :
    firstSeen (ts ++ [u]) = if u ∈ ts then firstSeen ts else firstSeen ts ++ [u] := by
  induction ts with
  | nil => simp [firstSeen]
  | cons a ts ih =>
    simp only [List.cons_append, firstSeen, List.append_eq]
    rw [ih]
    by_cases hu : u ∈ ts
    · rw [if_pos hu, if_pos (by simp [hu])]
    · rw [if_neg hu]
      by_cases hua : u = a
      · subst hua
        rw [if_pos (by simp), List.filter_append]
        simp [firstSeen]
      · rw [if_neg (by simp [hua, hu]), List.filter_append]
        simp [hua]

/-- The first-seen sequence holds exactly the elements of the scanned list. -/
theorem mem_firstSeen (ts : List TransactionType) (u : TransactionType) :
    u ∈ firstSeen ts ↔ u ∈ ts := by
  induction ts with
  | nil => simp [firstSeen]
  | cons a ts ih =>
    simp only [firstSeen, List.mem_cons, List.mem_filter]
    constructor
    · rintro (rfl | ⟨h1, _⟩)
      · exact Or.inl rfl
      · exact Or.inr (ih.mp h1)
    · rintro (rfl | h)
      · exact Or.inl rfl
      · by_cases hua : u = a
        · exact Or.inl hua
        · exact Or.inr ⟨ih.mpr h, by simp [hua]⟩

/-- The first-seen sequence has no duplicates. -/
theorem firstSeen_nodup (ts : List TransactionType) : (firstSeen ts).Nodup := by
  induction ts with
  | nil => simp [firstSeen]
  | cons a ts ih =>
    simp only [firstSeen, List.nodup_cons]
    constructor
    · intro hmem
      have := (List.mem_filter.mp hmem).2
      simp at this
    · exact ih.filter _

/-- The keys of the result dict are the stored orders' transaction types in
first-seen order along the iteration. -/
theorem computeBest_keys (l : List (Nat × Order)) :
    (computeBest l).map Prod.fst = firstSeen (l.map (fun p => p.2.transaction_type)) := by
  induction l using List.reverseRecOn with
  | nil => simp [computeBest, firstSeen]
  | append_singleton l x ih =>
    rw [computeBest_append]
    simp only [List.map_append, List.map_cons, List.map_nil]
    rw [firstSeen_append]
    cases hg : dictGet (computeBest l) x.2.transaction_type with
    | none =>
      have hkeys : x.2.transaction_type ∉ (computeBest l).map Prod.fst :=
        (dictGet_eq_none_iff _ _).mp hg
      have hnotin : x.2.transaction_type ∉ l.map (fun p => p.2.transaction_type) := by
        rw [← mem_firstSeen, ← ih]
        exact hkeys
      rw [bestStep_of_none _ _ hg, dictSet_of_not_mem _ _ _ hkeys]
      rw [if_neg hnotin, List.map_append, ih]
      simp
    | some b =>
      have hkeys : x.2.transaction_type ∈ (computeBest l).map Prod.fst := by
        by_contra hc
        have h0 := (dictGet_eq_none_iff (computeBest l) x.2.transaction_type).mpr hc
        rw [h0] at hg
        exact Option.noConfusion hg
      have hin : x.2.transaction_type ∈ l.map (fun p => p.2.transaction_type) := by
        rw [← mem_firstSeen, ← ih]
        exact hkeys
      rw [bestStep_of_some _ _ _ hg, if_pos hin]
      by_cases hlt : b.2 < orderTotal x.2
      · rw [if_pos hlt, map_fst_dictSet_of_mem _ _ _ hkeys, ih]
      · rw [if_neg hlt, ih]

/-- Claim C6: every add_order call synchronously prints exactly the rendered
best records — one line per transaction type represented among the stored
orders, no duplicates, each of the exact form
"Best <Buy|Sell> Order: ID = <id>, Price = <price>" — ordered by which
transaction type is first encountered while iterating the stored orders,
whose iteration order is ascending identifier order 1..N. -/
theorem claim_C6 (os : List Order) (o : Order) :
    ((runOrders os).1.add_order o).2 =
      (computeBest ((runOrders os).1.add_order o).1.orders).map renderLine ∧
    ((runOrders os).1.add_order o).1.orders.map Prod.fst =
      List.range' 1 (os.length + 1) ∧
    (computeBest ((runOrders os).1.add_order o).1.orders).map Prod.fst =
      firstSeen (((runOrders os).1.add_order o).1.orders.map
        (fun p => p.2.transaction_type)) ∧
    ((computeBest ((runOrders os).1.add_order o).1.orders).map Prod.fst).Nodup ∧
    (∀ tt : TransactionType,
      tt ∈ (computeBest ((runOrders os).1.add_order o).1.orders).map Prod.fst ↔
        ∃ p ∈ ((runOrders os).1.add_order o).1.orders, p.2.transaction_type = tt) ∧
    (∀ line ∈ ((runOrders os).1.add_order o).2,
      ∃ (tt : TransactionType) (i : Nat) (t : ℚ),
      (tt = TransactionType.BUY ∨ tt = TransactionType.SELL) ∧
      line = "Best " ++ TransactionType.value tt ++ " Order: ID = " ++ toString i ++
        ", Price = " ++ formatPyFloat t) := by
  refine ⟨rfl, ?_, computeBest_keys _, ?_, ?_, ?_⟩
  · rw [add_order_book, List.map_append, runOrders_keys, List.range'_concat]
    simp
    omega
  · rw [computeBest_keys]
    exact firstSeen_nodup _
  · intro tt
    rw [computeBest_keys, mem_firstSeen]
    exact List.mem_map
  · intro line hline
    rcases List.mem_map.mp hline with ⟨e, _, rfl⟩
    obtain ⟨tt, i, t⟩ := e
    refine ⟨tt, i, t, ?_, rfl⟩
    cases tt
    · exact Or.inl rfl
    · exact Or.inr rfl

/-- An order's computed total depends only on its products. -/
theorem orderTotal_strip (o₁ o₂ : Order) (h : stripOT o₁ = stripOT o₂) :
    orderTotal o₁ = orderTotal o₂ := by
  have hp : o₁.products = o₂.products := congrArg Prod.fst h
  simp [orderTotal, hp]

/-- The accumulation step reads only the identifier, the products and the
transaction type of the entry — never its order_type. -/
theorem bestStep_strip (r : List (TransactionType × (Nat × ℚ))) (i : Nat)
    (o₁ o₂ : Order) (h : stripOT o₁ = stripOT o₂) :
    bestStep r (i, o₁) = bestStep r (i, o₂) := by
  have htt : o₁.transaction_type = o₂.transaction_type := congrArg Prod.snd h
  simp only [bestStep]
  rw [orderTotal_strip o₁ o₂ h, htt]

/-- Folding the accumulation loop over books equal up to order_type gives
equal results from any accumulator. -/
theorem foldl_bestStep_strip (l₁ : List (Nat × Order)) :
    ∀ (l₂ : List (Nat × Order)),
      l₁.map (fun p => (p.1, stripOT p.2)) = l₂.map (fun p => (p.1, stripOT p.2)) →
      ∀ acc, l₁.foldl bestStep acc = l₂.foldl bestStep acc := by
  induction l₁ with
  | nil =>
    intro l₂ h acc
    cases l₂ with
    | nil => rfl
    | cons q l₂ => simp at h
  | cons p l₁ ih =>
    intro l₂ h acc
    cases l₂ with
    | nil => simp at h
    | cons q l₂ =>
      obtain ⟨pi, po⟩ := p
      obtain ⟨qi, qo⟩ := q
      simp only [List.map_cons, List.cons.injEq, Prod.mk.injEq] at h
      obtain ⟨⟨h1, h2⟩, hrest⟩ := h
      subst h1
      simp only [List.foldl_cons]
      rw [bestStep_strip acc pi po qo h2]
      exact ih l₂ hrest _

/-- Books equal up to order_type yield equal result dicts. -/
theorem computeBest_strip (l₁ l₂ : List (Nat × Order))
    (h : l₁.map (fun p => (p.1, stripOT p.2)) = l₂.map (fun p => (p.1, stripOT p.2))) :
    computeBest l₁ = computeBest l₂ :=
  foldl_bestStep_strip l₁ l₂ h []

/-- Driver loops over order sequences equal up to order_type, started from
states equal up to order_type with the same output so far, print the same
output and reach books equal up to order_type. -/
theorem runStep_foldl_strip (os₁ : List Order) :
    ∀ (os₂ : List Order) (b₁ b₂ : Orders) (out : List String),
      os₁.map stripOT = os₂.map stripOT →
      b₁.orders.map (fun p => (p.1, stripOT p.2)) =
        b₂.orders.map (fun p => (p.1, stripOT p.2)) →
      (os₁.foldl runStep (b₁, out)).2 = (os₂.foldl runStep (b₂, out)).2 ∧
      (os₁.foldl runStep (b₁, out)).1.orders.map (fun p => (p.1, stripOT p.2)) =
        (os₂.foldl runStep (b₂, out)).1.orders.map (fun p => (p.1, stripOT p.2)) := by
  induction os₁ with
  | nil =>
    intro os₂ b₁ b₂ out h hb
    cases os₂ with
    | nil => exact ⟨rfl, hb⟩
    | cons o os₂ => simp at h
  | cons o₁ os₁ ih =>
    intro os₂ b₁ b₂ out h hb
    cases os₂ with
    | nil => simp at h
    | cons o₂ os₂ =>
      simp only [List.map_cons, List.cons.injEq] at h
      obtain ⟨ho, hrest⟩ := h
      have hlen : b₁.orders.length = b₂.orders.length := by
        have := congrArg List.length hb
        simpa using this
      have hbooks :
          (b₁.add_order o₁).1.orders.map (fun p => (p.1, stripOT p.2)) =
            (b₂.add_order o₂).1.orders.map (fun p => (p.1, stripOT p.2)) := by
        show (dictSet b₁.orders b₁.getNextId o₁).map (fun p => (p.1, stripOT p.2)) =
          (dictSet b₂.orders b₂.getNextId o₂).map (fun p => (p.1, stripOT p.2))
        rw [dictSet_map_value, dictSet_map_value, hb, ho]
        show dictSet _ (b₁.orders.length + 1) _ = dictSet _ (b₂.orders.length + 1) _
        rw [hlen]
      have hlines : (b₁.add_order o₁).2 = (b₂.add_order o₂).2 := by
        show ((b₁.add_order o₁).1.orders.foldl bestStep []).map renderLine =
          ((b₂.add_order o₂).1.orders.foldl bestStep []).map renderLine
        rw [foldl_bestStep_strip _ _ hbooks]
      simp only [List.foldl_cons, runStep]
      rw [hlines]
      exact ih os₂ (b₁.add_order o₁).1 (b₂.add_order o₂).1 (out ++ (b₂.add_order o₂).2)
        hrest hbooks

/-- Claim C8: the order_type field is inert — two add_order sequences on
fresh OrderBooks that are identical except for the order_type of any inserted
orders produce identical printed output and identical books up to that field
(identifiers included). -/
theorem claim_C8 (os₁ os₂ : List Order) (h : os₁.map stripOT = os₂.map stripOT) :
    (runOrders os₁).2 = (runOrders os₂).2 ∧
    (runOrders os₁).1.orders.map (fun p => (p.1, stripOT p.2)) =
      (runOrders os₂).1.orders.map (fun p => (p.1, stripOT p.2)) :=
  runStep_foldl_strip os₁ os₂ Orders.new Orders.new [] h rfl

/-- Concrete instance of claim C8: the same order inserted as ADD and as
REMOVE gives the same output and the same book up to order_type. -/
theorem claim_C8_witness :
    (runOrders [blankBuyAdd]).2 = (runOrders [blankBuyRemove]).2 ∧
    (runOrders [blankBuyAdd]).1.orders.map (fun p => (p.1, stripOT p.2)) =
      (runOrders [blankBuyRemove]).1.orders.map (fun p => (p.1, stripOT p.2)) :=
  claim_C8 [blankBuyAdd] [blankBuyRemove] rfl
